import Mathlib

/-
Verification of the core algorithms of `SSCS_molecular_phred.py` (ConsensusCruncher,
single-strand consensus maker).  The Python functions `mismatch_pos`, `query_seq_pos`,
`consensus_maker`, `reverse_seq` and `sscs_qname` are shallowly embedded below.
Python exceptions (IndexError, KeyError, ValueError, ZeroDivisionError escaping a
function, UnboundLocalError) are modelled by `Option`: a function that raises returns
`none`.  Machine floats appear only in the molecular quality computation
`round(-10 * math.log10(P))`, modelled over the reals with `Real.logb`.
-/

/-- Collapse a list of optionals: `some` of the list of values, or `none` if any entry
is `none`.  Models a Python loop that raises as soon as one iteration raises. -/
def optList {α : Type} : List (Option α) → Option (List α)
  | [] => some []
  | none :: _ => none
  | some a :: rest => (optList rest).map (a :: ·)

/-- Python `int(...)` on a token made of digits (possibly padded by spaces):
strips spaces, then requires a nonempty all-digit string. -/
def pyNat (l : List Char) : Option Nat :=
  let core := ((l.dropWhile (· = ' ')).reverse.dropWhile (· = ' ')).reverse
  if core ≠ [] ∧ core.all Char.isDigit then
    some (core.foldl (fun acc c => acc * 10 + (c.toNat - 48)) 0)
  else none

/-- Python `int(...)` for possibly negative decimal strings (used on tag fields). -/
def pyInt (l : List Char) : Option Int :=
  let core := ((l.dropWhile (· = ' ')).reverse.dropWhile (· = ' ')).reverse
  match core with
  | '-' :: ds => (pyNat ds).map (fun n => -(n : Int))
  | ds => (pyNat ds).map (fun n => (n : Int))

/-- Characters kept by `re.split('[^0-9, \^]+', md)`: digits, comma, space, caret. -/
def isKept (c : Char) : Bool := c.isDigit || c = ',' || c = ' ' || c = '^'

/-- Model of `re.split('[^0-9, \^]+', md)`: split on maximal runs of non-kept
characters; adjacent separator characters produce a single split point, and a
leading/trailing separator run yields a leading/trailing empty token. -/
def splitKept : List Char → List (List Char)
  | [] => [[]]
  | c :: rest =>
    let ts := splitKept rest
    if isKept c then
      match ts with
      | [] => [[c]]
      | t :: ts' => (c :: t) :: ts'
    else
      match rest with
      | [] => [] :: ts
      | d :: _ => if isKept d then [] :: ts else ts

/-- Positions contributed by cigar insertions (`mismatch_pos`, second loop):
walk the cigar accumulating an `insert` counter over match (op 0) and insertion
(op 1) lengths; every inserted base appends its current counter value. -/
def insert_positions (cigar : List (Nat × Nat)) : List Nat :=
  (cigar.foldl
    (fun (acc : List Nat × Nat) op =>
      if op.1 = 1 then (acc.1 ++ (List.range op.2).map (fun j => acc.2 + j), acc.2 + op.2)
      else if op.1 = 0 then (acc.1, acc.2 + op.2)
      else acc)
    ([], 0)).1

/-- One step of the token walk of `mismatch_pos` (state: mismatch positions in
reverse order, pending deletion length, previous-token-was-deletion flag). -/
def md_step (ntokens : Nat) (st : Option (List Nat × Nat × Bool)) (it : Nat × List Char) :
    Option (List Nat × Nat × Bool) :=
  match st with
  | none => none
  | some (misRev, dp, pd) =>
    let t := it.2
    if t = [] then some (0 :: misRev, dp, pd)
    else if t.contains '^' then
      match pyNat t.dropLast with
      | none => none
      | some v => some (misRev, dp + v, true)
    else
      match pyNat t with
      | none => none
      | some v =>
        let x := if pd then v + dp else v
        let dp' := if pd then 0 else dp
        let pd' := if pd then false else pd
        let x' :=
          if 2 ≤ ntokens ∧ it.1 ≠ 0 ∧ misRev ≠ [] then
            x + misRev.headI + 1
          else x
        some (x' :: misRev, dp', pd')

/-- The token loop of `mismatch_pos`: iterate over all tokens except the last,
carrying the deletion bookkeeping; `none` models a `ValueError` from `int(...)`. -/
def md_walk (tokens : List (List Char)) : Option (List Nat) :=
  (tokens.dropLast.enum.foldl (md_step tokens.length) (some ([], 0, false))).map
    (fun st => st.1.reverse)

/-- Model of `list(set(mis_pos)); mis_pos.sort()`: the ascending sort of the
distinct elements. -/
def sortDedup (l : List Nat) : List Nat := (l.dedup).insertionSort (· ≤ ·)

/-- Model of `mismatch_pos(cigar, mismatch_tag)`: decode the MD-style run-length
string into absolute 0-based mismatch offsets, append one position per inserted
base from the cigar, deduplicate and sort ascending. -/
def mismatch_pos (cigar : List (Nat × Nat)) (md : String) : Option (List Nat) :=
  (md_walk (splitKept md.data)).map (fun mp => sortDedup (mp ++ insert_positions cigar))

/-- Model of `query_seq_pos(cigar, readLength)`: bounds of the query sequence
excluding leading/trailing soft (4) and hard (5) clips.  `none` models the
IndexError raised on an empty cigar. -/
def query_seq_pos (cigar : List (Nat × Nat)) (readLength : Nat) : Option (Nat × Int) :=
  match cigar.head?, cigar.getLast? with
  | some f, some l =>
    some ((if f.1 = 4 ∨ f.1 = 5 then f.2 else 0),
          (if l.1 = 4 ∨ l.1 = 5 then (readLength : Int) - (l.2 : Int) else (readLength : Int)))
  | _, _ => none

/-- The nucleotide alphabet `nuc_lst = ['A', 'C', 'G', 'T', 'N']` of `consensus_maker`. -/
def nuc_lst : List Char := ['A', 'C', 'G', 'T', 'N']

/-- An aligned read as consumed by `consensus_maker`: cigar operation list, MD tag,
`query_alignment_sequence` (clipped bases) and `query_alignment_qualities`
(clipped phred scores). -/
structure SamRead where
  cigar : List (Nat × Nat)
  md : String
  seq : List Char
  qual : List Nat
deriving DecidableEq

/-- The contribution of one read at one consensus position: an implicit N vote for a
clipped position (`position_score[4] += 1`), a phred abstention (`phred_fail`), or a
vote for nucleotide index `k` of `nuc_lst`. -/
inductive VoteOutcome where
  | nvote
  | abstain
  | cast (k : Nat)
deriving DecidableEq

/-- Model of `nuc_lst.index(nuc)`: index of a nucleotide in `nuc_lst`; `none` models
the ValueError raised on a character outside the alphabet. -/
def nucIndex (c : Char) : Option Nat :=
  if c = 'A' then some 0
  else if c = 'C' then some 1
  else if c = 'G' then some 2
  else if c = 'T' then some 3
  else if c = 'N' then some 4
  else none

/-- The vote-casting tail of the read loop of `consensus_maker`: read the base at
`query_alignment_sequence[i - start]` and convert it to its `nuc_lst` index;
`none` models an IndexError or ValueError. -/
def castVote (read : SamRead) (start i : Nat) : Option VoteOutcome :=
  match read.seq.get? (i - start) with
  | none => none
  | some nuc => (nucIndex nuc).map VoteOutcome.cast

/-- One read's action at consensus position `i` (the body of the inner loop of
`consensus_maker`): clipped positions vote N; a mismatch position whose quality
`query_alignment_qualities[i]` is below 30 abstains; otherwise the read votes for
its base at in-read offset `i - start`.  `none` models an uncaught exception. -/
def read_vote (read : SamRead) (mis : List Nat) (readLength i : Nat) : Option VoteOutcome :=
  match query_seq_pos read.cigar readLength with
  | none => none
  | some se =>
    if i < se.1 ∨ (i : Int) ≥ se.2 then some VoteOutcome.nvote
    else if i ∈ mis then
      match read.qual.get? i with
      | none => none
      | some q =>
        if q < 30 then some VoteOutcome.abstain
        else castVote read se.1 i
    else castVote read se.1 i

/-- The 5-entry tally `position_score` over A, C, G, T, N; clipped-position votes
count toward N, abstentions count nowhere. -/
def position_score (votes : List VoteOutcome) : List Nat :=
  [votes.countP (· = VoteOutcome.cast 0),
   votes.countP (· = VoteOutcome.cast 1),
   votes.countP (· = VoteOutcome.cast 2),
   votes.countP (· = VoteOutcome.cast 3),
   votes.countP (fun v => v = VoteOutcome.cast 4 ∨ v = VoteOutcome.nvote)]

/-- Python `max(position_score)` for a tally of naturals. -/
def maxList (l : List Nat) : Nat := l.foldl max 0

/-- Model of `round(-10 * math.log10(P))` over the reals. -/
noncomputable def pyQuality (P : ℚ) : ℤ := round ((-10 : ℝ) * Real.logb 10 (P : ℝ))

/-- The winning tally index: `max_nuc_pos` of `consensus_maker`, the entry of the
list of maximal-count indices selected by the tie-break draw `r` (model of
`max_nuc_pos[randint(0, len(max_nuc_pos)-1)]`). -/
def consensus_sel (ps : List Nat) (r : Nat) : Nat :=
  let m := maxList ps
  let maxs := (List.range ps.length).filter (fun f => ps.getD f 0 = m)
  maxs.getD (r % maxs.length) 0

/-- Sum of `error_bases = position_score[:sel] + position_score[sel+1:]`. -/
def errSum (ps : List Nat) (sel : Nat) : Nat := ((ps.take sel) ++ (ps.drop (sel + 1))).sum

/-- The per-position tally-and-emit step of `consensus_maker` (the `try` block):
choose the winning nucleotide among the maximal tally entries by the injected
tie-break `r`, and emit the molecular phred quality; a zero vote total raises
ZeroDivisionError, caught by the bare `except` which emits base N with quality 0. -/
noncomputable def consensus_at (ps : List Nat) (r : Nat) : Char × ℤ :=
  let sel := consensus_sel ps r
  let total := ps.sum
  if total = 0 then ('N', 0)
  else
    let P : ℚ := (errSum ps sel : ℚ) / (total : ℚ)
    (nuc_lst.getD sel 'N', if P = 0 then 62 else pyQuality P)

/-- The votes of all family members at consensus position `i`: decode each read's
mismatch positions, then run the read loop of `consensus_maker`; `none` models an
uncaught exception while scanning the reads. -/
def votesAt (readList : List SamRead) (readLength i : Nat) : Option (List VoteOutcome) :=
  (optList (readList.map (fun r => mismatch_pos r.cigar r.md))).bind
    (fun misList =>
      optList ((readList.zip misList).map (fun rm => read_vote rm.1 rm.2 readLength i)))

/-- Model of `consensus_maker(readList, readLength, cutoff)`.  The tie-break
randomness of `randint` is injected as `rand` (position ↦ draw).  The mismatch
decoding of every read happens before the position loop, so a decoding failure
aborts the whole call; a failure inside the read loop at any position likewise
aborts (`none`), while the tally step catches its own failures. -/
noncomputable def consensus_maker (readList : List SamRead) (readLength : Nat)
    (cutoff : ℚ) (rand : Nat → Nat) : Option (String × List ℤ) :=
  (optList (readList.map (fun r => mismatch_pos r.cigar r.md))).bind
    (fun _ =>
      (optList ((List.range readLength).map
        (fun i => (votesAt readList readLength i).map
          (fun votes => consensus_at (position_score votes) (rand i))))).map
        (fun pairs => (String.mk (pairs.map Prod.fst), pairs.map Prod.snd)))

/-- Model of the complement table `nuc = {'A':'T', 'C':'G', 'G':'C', 'T':'A', 'N':'N'}`;
`none` models the KeyError on any other character. -/
def nucComp (c : Char) : Option Char :=
  if c = 'A' then some 'T'
  else if c = 'C' then some 'G'
  else if c = 'G' then some 'C'
  else if c = 'T' then some 'A'
  else if c = 'N' then some 'N'
  else none

/-- The loop of `reverse_seq`: `rev_comp = nuc[base] + rev_comp`, walking the
sequence left to right while prepending complements to the accumulator. -/
def revCompAux : List Char → List Char → Option (List Char)
  | [], acc => some acc
  | b :: rest, acc =>
    match nucComp b with
    | none => none
    | some c => revCompAux rest (c :: acc)

/-- Model of `reverse_seq(seq)`: the reverse complement of a nucleotide string. -/
def reverse_seq (s : String) : Option String := (revCompAux s.data []).map String.mk

/-- Python `tag.split("_")`: split on every single underscore (no run collapsing). -/
def splitUnd : List Char → List (List Char)
  | [] => [[]]
  | c :: rest =>
    match splitUnd rest with
    | [] => [[]]
    | t :: ts => if c = '_' then [] :: t :: ts else (c :: t) :: ts

/-- Python `"_".join(parts)`. -/
def joinUnd : List (List Char) → List Char
  | [] => []
  | [t] => t
  | t :: t' :: ts => t ++ '_' :: joinUnd (t' :: ts)

/-- Python slice `s[:-7]`: drop the last seven characters. -/
def dropLast7 (l : List Char) : List Char := l.take (l.length - 7)

/-- Whether `pat` is an initial segment of `l`. -/
def leadsWith : List Char → List Char → Bool
  | [], _ => true
  | _ :: _, [] => false
  | p :: ps, c :: cs => p = c && leadsWith ps cs

/-- Python `pat in s` for strings: substring containment. -/
def hasSub (pat : List Char) : List Char → Bool
  | [] => leadsWith pat []
  | c :: rest => leadsWith pat (c :: rest) || hasSub pat rest

/-- Decimal digits of a natural number, for Python string formatting of flags. -/
def natChars (n : Nat) : List Char := Nat.toDigits 10 n

/-- The fixed `flag_pairings` table of `sscs_qname`; `none` models the KeyError on
a flag outside the table. -/
def flag_pairings (f : Nat) : Option Nat :=
  if f = 99 then some 147 else if f = 147 then some 99
  else if f = 83 then some 163 else if f = 163 then some 83
  else if f = 67 then some 131 else if f = 131 then some 67
  else if f = 115 then some 179 else if f = 179 then some 115
  else if f = 81 then some 161 else if f = 161 then some 81
  else if f = 97 then some 145 else if f = 145 then some 97
  else if f = 65 then some 129 else if f = 129 then some 65
  else if f = 113 then some 177 else if f = 177 then some 113
  else none

/-- Model of `sscs_qname(tag, flag)`: canonicalize a raw read tag
`barcode_chr_start_chr_end_strand_readnum` plus SAM flag into the consensus
family key.  `none` models any uncaught exception (IndexError on a short tag,
ValueError from `int`, UnboundLocalError when equal coordinates meet a flag
outside the proper-pair lists, KeyError on a flag outside `flag_pairings`). -/
def sscs_qname (tag : String) (flag : Nat) : Option String :=
  match splitUnd tag.data with
  | bc :: p1 :: p2 :: p3 :: p4 :: rest =>
    (pyInt p2).bind (fun sc =>
    (pyInt p4).bind (fun tc =>
    (if sc > tc ∧ p1 = p3 then some true
     else if p1 ≠ p4 then
       (pyInt p1).bind (fun a => (pyInt p3).map (fun b => a > b))
     else some false).bind (fun cond =>
    (if cond then
       some (dropLast7 (joinUnd (bc :: p3 :: p4 :: p1 :: p2 :: rest)) ++
             (if hasSub ['R', '1'] tag.data then "_neg".data else "_pos".data))
     else
       if p1 = p3 ∧ p2 = p4 then
         if flag = 99 ∨ flag = 147 then some (dropLast7 tag.data ++ "_pos".data)
         else if flag = 83 ∨ flag = 163 then some (dropLast7 tag.data ++ "_neg".data)
         else none
       else if hasSub ['R', '1'] tag.data then some (dropLast7 tag.data ++ "_pos".data)
       else some (dropLast7 tag.data ++ "_neg".data)).bind (fun new_tag =>
    (flag_pairings flag).map (fun fp =>
      if flag < fp then
        String.mk (new_tag ++ '_' :: natChars flag ++ '_' :: natChars fp)
      else
        String.mk (new_tag ++ '_' :: natChars fp ++ '_' :: natChars flag))))))
  | _ => none

theorem optList_length {α : Type} {l : List (Option α)} {xs : List α}
    (h : optList l = some xs) : xs.length = l.length := by
  induction l generalizing xs with
  | nil => simp [optList] at h; simp [← h]
  | cons o rest ih =>
    cases o with
    | none => simp [optList] at h
    | some a =>
      simp only [optList, Option.map_eq_some'] at h
      obtain ⟨ys, hys, rfl⟩ := h
      simp [ih hys]

theorem optList_get {α : Type} {l : List (Option α)} {xs : List α}
    (h : optList l = some xs) (i : Nat) : l[i]? = (xs[i]?).map some := by
  induction l generalizing xs i with
  | nil => simp [optList] at h; subst h; simp
  | cons o rest ih =>
    cases o with
    | none => simp [optList] at h
    | some a =>
      simp only [optList, Option.map_eq_some'] at h
      obtain ⟨ys, hys, rfl⟩ := h
      cases i with
      | zero => simp
      | succ n => simpa using ih hys n

theorem optList_mem {α : Type} {l : List (Option α)} {xs : List α} {x : α}
    (h : optList l = some xs) (hx : x ∈ xs) : some x ∈ l := by
  obtain ⟨n, hn, hget⟩ := List.mem_iff_getElem.mp hx
  have hg := optList_get h n
  rw [List.getElem?_eq_getElem hn, hget] at hg
  have hg' : l.get? n = some (some x) := by rw [List.get?_eq_getElem?, hg]; rfl
  exact List.get?_mem hg'

theorem foldl_max_le (l : List Nat) (a : Nat) : a ≤ l.foldl max a := by
  induction l generalizing a with
  | nil => simp
  | cons b rest ih => exact le_trans (Nat.le_max_left a b) (ih (max a b))

theorem foldl_max_le_of_mem {l : List Nat} {x : Nat} (hx : x ∈ l) (a : Nat) :
    x ≤ l.foldl max a := by
  induction l generalizing a with
  | nil => cases hx
  | cons b rest ih =>
    rcases List.mem_cons.mp hx with rfl | hx'
    · exact le_trans (Nat.le_max_right a x) (foldl_max_le rest (max a x))
    · exact ih hx' (max a b)

theorem foldl_max_mem (l : List Nat) (a : Nat) : l.foldl max a = a ∨ l.foldl max a ∈ l := by
  induction l generalizing a with
  | nil => left; rfl
  | cons b rest ih =>
    rcases ih (max a b) with h | h
    · rcases Nat.le_total a b with hab | hab
      · right
        rw [List.foldl_cons, h, Nat.max_eq_right hab]
        exact List.mem_cons_self b rest
      · left
        rw [List.foldl_cons, h, Nat.max_eq_left hab]
    · right
      rw [List.foldl_cons]
      exact List.mem_cons_of_mem b h

theorem maxList_mem {ps : List Nat} (h : 1 ≤ ps.sum) : maxList ps ∈ ps := by
  rcases foldl_max_mem ps 0 with h0 | hm
  · exfalso
    have hz : ps.sum = 0 := by
      apply List.sum_eq_zero_iff.mpr
      intro x hx
      have hle : x ≤ maxList ps := foldl_max_le_of_mem hx 0
      have h0' : maxList ps = 0 := h0
      omega
    omega
  · exact hm

theorem consensus_sel_spec {ps : List Nat} (h : 1 ≤ ps.sum) (r : Nat) :
    consensus_sel ps r < ps.length ∧ ps.getD (consensus_sel ps r) 0 = maxList ps := by
  have hmem : maxList ps ∈ ps := maxList_mem h
  obtain ⟨idx, hidx, hget⟩ := List.mem_iff_getElem.mp hmem
  have hidx_mem : idx ∈ (List.range ps.length).filter (fun f => ps.getD f 0 = maxList ps) := by
    apply List.mem_filter.mpr
    refine ⟨List.mem_range.mpr hidx, ?_⟩
    simp [List.getD_eq_getElem?_getD, List.getElem?_eq_getElem hidx, hget]
  have hlen : 0 < ((List.range ps.length).filter (fun f => ps.getD f 0 = maxList ps)).length :=
    List.length_pos.mpr (List.ne_nil_of_mem hidx_mem)
  have hsel : consensus_sel ps r ∈
      (List.range ps.length).filter (fun f => ps.getD f 0 = maxList ps) := by
    have hmod := Nat.mod_lt r hlen
    show ((List.range ps.length).filter (fun f => ps.getD f 0 = maxList ps)).getD
      (r % ((List.range ps.length).filter (fun f => ps.getD f 0 = maxList ps)).length) 0 ∈ _
    rw [List.getD_eq_getElem?_getD, List.getElem?_eq_getElem hmod]
    exact List.getElem_mem hmod
  have hspec := List.mem_filter.mp hsel
  refine ⟨List.mem_range.mp hspec.1, ?_⟩
  simpa using hspec.2

theorem errSum_add {ps : List Nat} {sel : Nat} (h : sel < ps.length) :
    errSum ps sel + ps.getD sel 0 = ps.sum := by
  unfold errSum
  rw [List.sum_append, List.getD_eq_getElem?_getD, List.getElem?_eq_getElem h]
  have hsum := List.sum_take_add_sum_drop ps sel
  rw [List.drop_eq_getElem_cons h] at hsum
  simp only [List.sum_cons, Option.getD_some] at hsum ⊢
  omega

theorem consensus_at_fst_mem (ps : List Nat) (r : Nat) : (consensus_at ps r).1 ∈ nuc_lst := by
  unfold consensus_at
  dsimp only
  split
  · simp [nuc_lst]
  · rcases Nat.lt_or_ge (consensus_sel ps r) nuc_lst.length with h | h
    · rw [List.getD_eq_getElem?_getD, List.getElem?_eq_getElem h]
      exact List.getElem_mem h
    · rw [List.getD_eq_getElem?_getD, List.getElem?_eq_none h]
      simp [nuc_lst]

theorem pyQuality_half : pyQuality (1 / 2) = 3 := by
  unfold pyQuality
  have h1 : (((1 : ℚ) / 2 : ℚ) : ℝ) = (2 : ℝ)⁻¹ := by norm_num
  rw [h1]
  simp only [Real.logb, Real.log_inv]
  have hlog10 : (0 : ℝ) < Real.log 10 := Real.log_pos (by norm_num)
  have hlow : Real.log 10 ≤ 4 * Real.log 2 := by
    have h16 : Real.log 10 ≤ Real.log 16 := Real.log_le_log (by norm_num) (by norm_num)
    have he : Real.log 16 = 4 * Real.log 2 := by
      rw [show (16 : ℝ) = 2 ^ 4 by norm_num, Real.log_pow]
      push_cast
      ring
    linarith
  have hhigh : 20 * Real.log 2 < 7 * Real.log 10 := by
    have hl : Real.log 1048576 < Real.log 10000000 := Real.log_lt_log (by norm_num) (by norm_num)
    have ha : Real.log 1048576 = 20 * Real.log 2 := by
      rw [show (1048576 : ℝ) = 2 ^ 20 by norm_num, Real.log_pow]
      push_cast
      ring
    have hb : Real.log 10000000 = 7 * Real.log 10 := by
      rw [show (10000000 : ℝ) = 10 ^ 7 by norm_num, Real.log_pow]
      push_cast
      ring
    linarith
  have hrw : (-10 : ℝ) * (-Real.log 2 / Real.log 10) = 10 * Real.log 2 / Real.log 10 := by
    ring
  rw [hrw, round_eq]
  have hx_lo : (5 / 2 : ℝ) ≤ 10 * Real.log 2 / Real.log 10 := by
    rw [le_div_iff hlog10]
    linarith
  have hx_hi : 10 * Real.log 2 / Real.log 10 < 7 / 2 := by
    rw [div_lt_iff hlog10]
    linarith
  apply Int.floor_eq_iff.mpr
  constructor
  · push_cast
    linarith
  · push_cast
    linarith

/-- Totalized complement on the nucleotide alphabet (agrees with `nucComp` there). -/
def compCh (c : Char) : Char := (nucComp c).getD 'N'

theorem nucComp_eq {c : Char} (h : c ∈ nuc_lst) : nucComp c = some (compCh c) := by
  fin_cases h <;> rfl

theorem compCh_mem {c : Char} (h : c ∈ nuc_lst) : compCh c ∈ nuc_lst := by
  fin_cases h <;> decide

theorem compCh_invol {c : Char} (h : c ∈ nuc_lst) : compCh (compCh c) = c := by
  fin_cases h <;> rfl

theorem revCompAux_eq {l : List Char} (h : ∀ c ∈ l, c ∈ nuc_lst) (acc : List Char) :
    revCompAux l acc = some ((l.map compCh).reverse ++ acc) := by
  induction l generalizing acc with
  | nil => simp [revCompAux]
  | cons b rest ih =>
    have hb : b ∈ nuc_lst := h b (by simp)
    rw [revCompAux, nucComp_eq hb]
    simp only []
    rw [ih (fun c hc => h c (by simp [hc]))]
    simp

/-- A read with a leading soft clip whose mismatch position has low quality at the
in-read offset but high quality at the unshifted index (cigar 2S3M). -/
def readClip : SamRead := ⟨[(4, 2), (0, 3)], "2A", ['A', 'A', 'A'], [10, 99, 99]⟩

/-- A read whose decoded mismatch position lies beyond its aligned segment
(cigar 6S4M with an overlong MD run), so the quality lookup raises. -/
def readBad : SamRead := ⟨[(4, 6), (0, 4)], "9A", ['A', 'A', 'A', 'A'], [40, 40, 40, 40]⟩

/-- A single-base read whose only position is a low-quality mismatch, so it
abstains and the vote total is zero. -/
def readAbstain : SamRead := ⟨[(0, 1)], "A0", ['A'], [10]⟩

/-- A plain two-base read with no mismatches. -/
def readAA : SamRead := ⟨[(0, 2)], "2", ['A', 'A'], [40, 40]⟩

/-- A single-base read voting A with no mismatches. -/
def readA : SamRead := ⟨[(0, 1)], "1", ['A'], [40]⟩

/-- A single-base read voting C with no mismatches. -/
def readC : SamRead := ⟨[(0, 1)], "1", ['C'], [40]⟩

/-- A four-read family producing the tied tally 2 A, 2 C with no abstentions. -/
def fam4 : List SamRead := [readA, readA, readC, readC]

/-- C1: the two mates of one fragment are claimed to canonicalize to one identical
family key with the smaller flag first.  The flag suffix is indeed ordered, but the
coordinate swap guard of `sscs_qname` compares the start chromosome against the stop
coordinate (line 411, `start_chr != stop_coor`), so on the translocation mate pair
tags AAAA_13_200_1_13 (R1, flag 65) and AAAA_1_13_13_200 (R2, flag 129), where the
chromosome string "13" equals the mate coordinate string "13", the two mates
receive different keys, one of them not ordered lower chromosome first. -/
theorem C1_mate_keys_differ :
    sscs_qname "AAAA_13_200_1_13_fwd_R1" 65 = some "AAAA_13_200_1_13_pos_65_129" ∧
    sscs_qname "AAAA_1_13_13_200_fwd_R2" 129 = some "AAAA_1_13_13_200_neg_65_129" ∧
    sscs_qname "AAAA_13_200_1_13_fwd_R1" 65 ≠ sscs_qname "AAAA_1_13_13_200_fwd_R2" 129 :=
  ⟨by decide, by decide, by decide⟩

/-- C2 counterexample: the claimed canonical string has no strand marker, but the
code inserts pos or neg before the flag pair, so the first raw tag does not
canonicalize to the claimed string. -/
theorem C2_counterexample :
    sscs_qname "CCCC_12_25398064_12_25398156_fwd_R1" 99 ≠
      some "CCCC_12_25398064_12_25398156_99_147" := by decide

/-- C2 (amended): both mates canonicalize to the same key, which carries the
strand marker pos between the coordinates and the ordered flag pair:
CCCC_12_25398064_12_25398156_pos_99_147. -/
theorem C2_canonical_pair :
    sscs_qname "CCCC_12_25398064_12_25398156_fwd_R1" 99 =
      some "CCCC_12_25398064_12_25398156_pos_99_147" ∧
    sscs_qname "CCCC_12_25398156_12_25398064_rev_R2" 147 =
      some "CCCC_12_25398064_12_25398156_pos_99_147" :=
  ⟨by decide, by decide⟩

/-- C6: whenever `mismatch_pos` returns a list, that list is duplicate-free and
sorted strictly ascending, and every position contributed by a cigar insertion
appears in it (insertions have no representation in the mismatch string). -/
theorem C6_mismatch_sorted (cigar : List (Nat × Nat)) (md : String) (l : List Nat)
    (h : mismatch_pos cigar md = some l) :
    l.Nodup ∧ List.Sorted (· < ·) l ∧ ∀ p ∈ insert_positions cigar, p ∈ l := by
  unfold mismatch_pos at h
  rw [Option.map_eq_some'] at h
  obtain ⟨mp, _, rfl⟩ := h
  have hnd : (sortDedup (mp ++ insert_positions cigar)).Nodup :=
    (List.perm_insertionSort _ _).symm.nodup (List.nodup_dedup _)
  have hsle : List.Sorted (· ≤ ·) (sortDedup (mp ++ insert_positions cigar)) :=
    List.sorted_insertionSort _ _
  refine ⟨hnd, hsle.lt_of_le hnd, ?_⟩
  intro p hp
  unfold sortDedup
  rw [(List.perm_insertionSort _ _).mem_iff, List.mem_dedup]
  exact List.mem_append_right mp hp

/-- C6 witness: decoding cigar 28M1I69M with mismatch string 19T74G2 yields
[19, 28, 94], which is duplicate-free, strictly sorted, and contains the inserted
base position 28. -/
theorem C6_witness :
    mismatch_pos [(0, 28), (1, 1), (0, 69)] "19T74G2" = some [19, 28, 94] ∧
    ([19, 28, 94] : List Nat).Nodup ∧ List.Sorted (· < ·) ([19, 28, 94] : List Nat) ∧
      ∀ p ∈ insert_positions [(0, 28), (1, 1), (0, 69)], p ∈ ([19, 28, 94] : List Nat) :=
  ⟨by decide, C6_mismatch_sorted [(0, 28), (1, 1), (0, 69)] "19T74G2" [19, 28, 94] (by decide)⟩

/-- C8: `consensus_maker` ignores its cutoff argument entirely: any two cutoff
values give identical results for every family, read length and tie-break. -/
theorem C8_cutoff_unused (readList : List SamRead) (readLength : Nat) (c1 c2 : ℚ)
    (rand : Nat → Nat) :
    consensus_maker readList readLength c1 rand = consensus_maker readList readLength c2 rand :=
  rfl

/-- C9: `query_seq_pos` returns start equal to the first operation length when that
operation is a soft (4) or hard (5) clip and 0 otherwise, and end equal to the
declared length minus the last operation length when that operation is a clip and
the declared length otherwise; including the two concrete cases of the claim. -/
theorem C9_query_bounds :
    (∀ (cigar : List (Nat × Nat)) (L : Nat) (f l : Nat × Nat),
        cigar.head? = some f → cigar.getLast? = some l →
        query_seq_pos cigar L =
          some ((if f.1 = 4 ∨ f.1 = 5 then f.2 else 0),
                (if l.1 = 4 ∨ l.1 = 5 then (L : Int) - (l.2 : Int) else (L : Int)))) ∧
    query_seq_pos [(4, 6), (0, 92)] 98 = some (6, 98) ∧
    query_seq_pos [(0, 37), (5, 61)] 98 = some (0, 37) := by
  refine ⟨?_, by decide, by decide⟩
  intro cigar L f l hf hl
  unfold query_seq_pos
  rw [hf, hl]

/-- C9 witness: the general clause applied to the concrete cigar 6S92M. -/
theorem C9_witness :
    query_seq_pos [(4, 6), (0, 92)] 98 =
      some ((if (4 : Nat) = 4 ∨ (4 : Nat) = 5 then (6 : Nat) else 0),
            (if (0 : Nat) = 4 ∨ (0 : Nat) = 5 then (98 : Int) - (92 : Int) else (98 : Int))) :=
  C9_query_bounds.1 [(4, 6), (0, 92)] 98 (4, 6) (0, 92) (by decide) (by decide)

/-- C10: on a string over the alphabet A, C, G, T, N, `reverse_seq` succeeds,
preserves the length, stays inside the alphabet, and is an involution. -/
theorem C10_reverse_seq_involution (s : String) (h : ∀ c ∈ s.data, c ∈ nuc_lst) :
    ∃ t : String, reverse_seq s = some t ∧ t.data.length = s.data.length ∧
      (∀ c ∈ t.data, c ∈ nuc_lst) ∧ reverse_seq t = some s := by
  refine ⟨String.mk ((s.data.map compCh).reverse), ?_, by simp, ?_, ?_⟩
  · unfold reverse_seq
    rw [revCompAux_eq h]
    simp
  · intro c hc
    simp only [List.mem_reverse, List.mem_map] at hc
    obtain ⟨a, ha, rfl⟩ := hc
    exact compCh_mem (h a ha)
  · unfold reverse_seq
    have h2 : ∀ c ∈ (String.mk ((s.data.map compCh).reverse)).data, c ∈ nuc_lst := by
      intro c hc
      simp only [List.mem_reverse, List.mem_map] at hc
      obtain ⟨a, ha, rfl⟩ := hc
      exact compCh_mem (h a ha)
    rw [revCompAux_eq h2]
    have h3 : ((((String.mk ((s.data.map compCh).reverse)).data.map compCh).reverse) ++ []) =
        s.data := by
      simp only [List.append_nil]
      rw [List.map_reverse, List.reverse_reverse, List.map_map]
      apply List.map_congr_left ?_ |>.trans (List.map_id s.data)
      intro a ha
      exact compCh_invol (h a ha)
    rw [h3]
    rfl

/-- C10 witness: the involution property evaluated on the string ACGTN. -/
theorem C10_witness :
    (∀ c ∈ ("ACGTN" : String).data, c ∈ nuc_lst) ∧
    ∃ t : String, reverse_seq "ACGTN" = some t ∧ t.data.length = ("ACGTN" : String).data.length ∧
      (∀ c ∈ t.data, c ∈ nuc_lst) ∧ reverse_seq t = some "ACGTN" :=
  ⟨by decide, C10_reverse_seq_involution "ACGTN" (by decide)⟩

/-- C3 counterexample: for the clipped read `readClip` (cigar 2S3M) at position 2,
the claim's hypotheses hold (2 is within the query bounds, 2 is a decoded mismatch
position, and the quality at the in-read offset 2 − 2 = 0 is 10 < 30), yet the read
does not abstain: the code checks the quality at the unshifted index 2 (value 99),
so the read casts a vote for A which is counted in the vote total. -/
theorem C3_counterexample :
    mismatch_pos readClip.cigar readClip.md = some [2] ∧
    query_seq_pos readClip.cigar 5 = some (2, 5) ∧
    (2 : Nat) ∈ [(2 : Nat)] ∧
    readClip.qual.get? (2 - 2) = some 10 ∧ (10 : Nat) < 30 ∧
    read_vote readClip [2] 5 2 = some (VoteOutcome.cast 0) ∧
    (position_score [VoteOutcome.cast 0]).sum = 1 :=
  ⟨by decide, by decide, by decide, by decide, by decide, by decide, by decide⟩

/-- C3 (amended): if position i is within the read's query bounds, i is one of the
read's decoded mismatch positions, and the quality score at the unshifted index i
of the read's aligned-quality array (not at i minus the clip offset) is below 30,
then the read abstains: it casts no vote and contributes nothing to the tally. -/
theorem C3_phred_abstention (read : SamRead) (mis : List Nat) (L i start : Nat) (e : Int)
    (q : Nat)
    (hq : query_seq_pos read.cigar L = some (start, e))
    (hlo : start ≤ i) (hhi : (i : Int) < e)
    (hmis : i ∈ mis)
    (hqual : read.qual.get? i = some q)
    (hlow : q < 30) :
    read_vote read mis L i = some VoteOutcome.abstain ∧
    ∀ vs, position_score (VoteOutcome.abstain :: vs) = position_score vs := by
  constructor
  · have hc : ¬(i < start ∨ (i : Int) ≥ e) := by
      push_neg
      exact ⟨by omega, hhi⟩
    simp only [read_vote, hq, if_neg hc, if_pos hmis, hqual, if_pos hlow]
  · intro vs
    simp [position_score, List.countP_cons]

/-- C3 witness: the amended abstention rule applied to `readAbstain` at position 0. -/
theorem C3_witness :
    read_vote readAbstain [0] 1 0 = some VoteOutcome.abstain ∧
    position_score [VoteOutcome.abstain] = position_score [] :=
  ⟨(C3_phred_abstention readAbstain [0] 1 0 0 1 10 (by decide) (by decide) (by decide)
      (by decide) (by decide) (by decide)).1,
   (C3_phred_abstention readAbstain [0] 1 0 0 1 10 (by decide) (by decide) (by decide)
      (by decide) (by decide) (by decide)).2 []⟩

/-- C4 counterexample: on the family consisting of `readBad` (cigar 6S4M, whose
decoded mismatch position 9 lies beyond the 4-entry aligned-quality array), the
quality lookup at position 9 fails inside the read-scanning loop, which is outside
the try block: the failure propagates and `consensus_maker` produces no output at
all instead of emitting base N with quality 0 at that position. -/
theorem C4_counterexample :
    mismatch_pos readBad.cigar readBad.md = some [9] ∧
    votesAt [readBad] 10 9 = none ∧
    consensus_maker [readBad] 10 0 (fun _ => 0) = none :=
  ⟨by decide, by decide, by decide⟩

/-- C4 (amended): when `consensus_maker` returns a result and all reads abstained at
a position (vote total 0), that position carries base N with quality 0 — the
ZeroDivisionError of the tally step is caught locally; however failures in the
read-scanning loop (such as a quality lookup beyond the aligned segment) are not
caught and abort the whole call. -/
theorem C4_zero_total (fam : List SamRead) (L : Nat) (c : ℚ) (rand : Nat → Nat)
    (b : String) (qs : List ℤ) (i : Nat) (votes : List VoteOutcome)
    (hout : consensus_maker fam L c rand = some (b, qs))
    (hi : i < L)
    (hv : votesAt fam L i = some votes)
    (hz : (position_score votes).sum = 0) :
    b.data.get? i = some 'N' ∧ qs.get? i = some 0 := by
  unfold consensus_maker at hout
  rw [Option.bind_eq_some] at hout
  obtain ⟨misList, hmis, hout⟩ := hout
  rw [Option.map_eq_some'] at hout
  obtain ⟨pairs, hpairs, hbq⟩ := hout
  have hstep := optList_get hpairs i
  have hri : (List.range L)[i]? = some i := by
    rw [List.getElem?_eq_getElem (by simpa using hi)]
    simp
  rw [List.getElem?_map, hri] at hstep
  simp only [Option.map_some'] at hstep
  rw [hv] at hstep
  simp only [Option.map_some'] at hstep
  have hNA : consensus_at (position_score votes) (rand i) = ('N', 0) := by
    unfold consensus_at
    dsimp only
    rw [if_pos hz]
  cases hp : pairs[i]? with
  | none =>
    rw [hp] at hstep
    simp at hstep
  | some pr =>
    rw [hp] at hstep
    simp only [Option.map_some'] at hstep
    have hpr : pr = ('N', 0) := by
      have hpc := Option.some.inj (Option.some.inj hstep).symm
      rw [hpc]
      exact hNA
    have hb : b = String.mk (pairs.map Prod.fst) := by
      have := congrArg Prod.fst hbq
      simpa using this.symm
    have hq : qs = pairs.map Prod.snd := by
      have := congrArg Prod.snd hbq
      simpa using this.symm
    constructor
    · rw [hb]
      show (pairs.map Prod.fst).get? i = some 'N'
      rw [List.get?_eq_getElem?, List.getElem?_map, hp, hpr]
      rfl
    · rw [hq]
      rw [List.get?_eq_getElem?, List.getElem?_map, hp, hpr]
      rfl

/-- C4 witness: the single-read family of `readAbstain` abstains at its only
position, and the amended rule yields base N with quality 0 there. -/
theorem C4_witness :
    consensus_maker [readAbstain] 1 0 (fun _ => 0) = some ("N", [0]) ∧
    ("N" : String).data.get? 0 = some 'N' ∧ ([(0 : ℤ)] : List ℤ).get? 0 = some 0 := by
  have hout : consensus_maker [readAbstain] 1 0 (fun _ => 0) = some ("N", [0]) := by decide
  exact ⟨hout,
    C4_zero_total [readAbstain] 1 0 (fun _ => 0) "N" [0] 0 [VoteOutcome.abstain] hout
      (by decide) (by decide) (by decide)⟩

/-- C7: whenever `consensus_maker` returns, the base string and the quality list
both have length exactly `readLength`, and every emitted base is one of
A, C, G, T, N. -/
theorem C7_consensus_shape (fam : List SamRead) (L : Nat) (c : ℚ) (rand : Nat → Nat)
    (b : String) (qs : List ℤ)
    (hout : consensus_maker fam L c rand = some (b, qs)) :
    b.data.length = L ∧ qs.length = L ∧ ∀ ch ∈ b.data, ch ∈ nuc_lst := by
  unfold consensus_maker at hout
  rw [Option.bind_eq_some] at hout
  obtain ⟨misList, hmis, hout⟩ := hout
  rw [Option.map_eq_some'] at hout
  obtain ⟨pairs, hpairs, hbq⟩ := hout
  have hb : b = String.mk (pairs.map Prod.fst) := by
    have := congrArg Prod.fst hbq
    simpa using this.symm
  have hq : qs = pairs.map Prod.snd := by
    have := congrArg Prod.snd hbq
    simpa using this.symm
  have hlen : pairs.length = L := by
    have := optList_length hpairs
    simpa using this
  refine ⟨by rw [hb]; simpa using hlen, by rw [hq]; simpa using hlen, ?_⟩
  intro ch hch
  rw [hb] at hch
  have hch' : ch ∈ pairs.map Prod.fst := hch
  obtain ⟨pr, hpr, rfl⟩ := List.mem_map.mp hch'
  have hsome := optList_mem hpairs hpr
  obtain ⟨i, _, hstep⟩ := List.mem_map.mp hsome
  rw [Option.map_eq_some'] at hstep
  obtain ⟨votes, _, hpr_eq⟩ := hstep
  rw [← hpr_eq]
  exact consensus_at_fst_mem (position_score votes) (rand i)

/-- C7 witness: the single-read family of `readAA` with read length 2 produces the
base string AA and qualities [62, 62], of length 2 and inside the alphabet. -/
theorem C7_witness :
    consensus_maker [readAA] 2 0 (fun _ => 0) = some ("AA", [62, 62]) ∧
    ("AA" : String).data.length = 2 ∧ ([62, 62] : List ℤ).length = 2 ∧
      ∀ ch ∈ ("AA" : String).data, ch ∈ nuc_lst := by
  have hm : optList ([readAA].map (fun r : SamRead => mismatch_pos r.cigar r.md)) =
      some [[]] := by decide
  have hv0 : votesAt [readAA] 2 0 = some [VoteOutcome.cast 0] := by decide
  have hv1 : votesAt [readAA] 2 1 = some [VoteOutcome.cast 0] := by decide
  have hr : List.range 2 = [0, 1] := by decide
  have hps : position_score [VoteOutcome.cast 0] = [1, 0, 0, 0, 0] := by decide
  have hca : consensus_at [1, 0, 0, 0, 0] 0 = ('A', 62) := by
    have hsel : consensus_sel [1, 0, 0, 0, 0] 0 = 0 := by decide
    have herr : errSum [1, 0, 0, 0, 0] 0 = 0 := by decide
    simp [consensus_at, hsel, herr, nuc_lst]
  have hout : consensus_maker [readAA] 2 0 (fun _ => 0) = some ("AA", [62, 62]) := by
    simp [consensus_maker, hm, hr, hv0, hv1, optList, hps, hca]
  refine ⟨hout, ?_⟩
  exact (C7_consensus_shape [readAA] 2 0 (fun _ => 0) "AA" [62, 62] hout).2.1 ▸
    ⟨by decide, by decide, fun ch hch =>
      (C7_consensus_shape [readAA] 2 0 (fun _ => 0) "AA" [62, 62] hout).2.2 ch hch⟩

/-- C5: at every position with at least one vote, the emitted symbol is one whose
tally entry is maximal (under a tie, one of the tied symbols selected by the
tie-break draw), and the emitted quality is 62 when the error fraction
P = (total − votes-for-winner)/total is 0 and round(−10·log10 P) otherwise;
in particular the 4-read family with tally 2 A, 2 C and no abstentions emits
A or C with quality 3 for every tie-break. -/
theorem C5_majority_quality :
    (∀ (votes : List VoteOutcome) (r : Nat),
        1 ≤ (position_score votes).sum →
        ∃ k, k < 5 ∧
          (position_score votes).getD k 0 = maxList (position_score votes) ∧
          consensus_at (position_score votes) r =
            (nuc_lst.getD k 'N',
             if (((position_score votes).sum - (position_score votes).getD k 0 : Nat) : ℚ) /
                 ((position_score votes).sum : ℚ) = 0 then 62
             else pyQuality ((((position_score votes).sum -
                 (position_score votes).getD k 0 : Nat) : ℚ) /
                 ((position_score votes).sum : ℚ)))) ∧
    (∀ rand : Nat → Nat, ∃ bc : Char,
        consensus_maker fam4 1 0 rand = some (String.mk [bc], [3]) ∧ (bc = 'A' ∨ bc = 'C')) := by
  constructor
  · intro votes r hsum
    obtain ⟨hlt, hmax⟩ := consensus_sel_spec hsum r
    refine ⟨consensus_sel (position_score votes) r, ?_, hmax, ?_⟩
    · have h5 : (position_score votes).length = 5 := rfl
      omega
    · unfold consensus_at
      dsimp only
      rw [if_neg (by omega : ¬ (position_score votes).sum = 0)]
      have herr : errSum (position_score votes) (consensus_sel (position_score votes) r) =
          (position_score votes).sum -
            (position_score votes).getD (consensus_sel (position_score votes) r) 0 := by
        have := errSum_add hlt
        omega
      rw [herr]
  · intro rand
    have hm : optList (fam4.map (fun r : SamRead => mismatch_pos r.cigar r.md)) =
        some [[], [], [], []] := by decide
    have hv : votesAt fam4 1 0 =
        some [VoteOutcome.cast 0, VoteOutcome.cast 0, VoteOutcome.cast 1, VoteOutcome.cast 1] :=
      by decide
    have hr1 : List.range 1 = [0] := by decide
    have hps : position_score
        [VoteOutcome.cast 0, VoteOutcome.cast 0, VoteOutcome.cast 1, VoteOutcome.cast 1] =
        [2, 2, 0, 0, 0] := by decide
    have hP : ((2 : Nat) : ℚ) / ((4 : Nat) : ℚ) = 1 / 2 := by norm_num
    have hg : consensus_sel [2, 2, 0, 0, 0] (rand 0) =
        ([0, 1] : List Nat).getD ((rand 0) % 2) 0 := rfl
    rcases Nat.mod_two_eq_zero_or_one (rand 0) with h2 | h2
    · refine ⟨'A', ?_, Or.inl rfl⟩
      rw [h2] at hg
      have hsel : consensus_sel [2, 2, 0, 0, 0] (rand 0) = 0 := hg
      have hca : consensus_at [2, 2, 0, 0, 0] (rand 0) = ('A', 3) := by
        unfold consensus_at
        dsimp only
        rw [hsel, if_neg (by decide : ¬ ([2, 2, 0, 0, 0] : List Nat).sum = 0)]
        rw [show errSum [2, 2, 0, 0, 0] 0 = 2 from rfl,
            show ([2, 2, 0, 0, 0] : List Nat).sum = 4 from rfl, hP,
            if_neg (by norm_num : ¬ ((1 : ℚ) / 2) = 0), pyQuality_half]
        rfl
      simp [consensus_maker, hm, hr1, hv, optList, hps, hca]
    · refine ⟨'C', ?_, Or.inr rfl⟩
      rw [h2] at hg
      have hsel : consensus_sel [2, 2, 0, 0, 0] (rand 0) = 1 := hg
      have hca : consensus_at [2, 2, 0, 0, 0] (rand 0) = ('C', 3) := by
        unfold consensus_at
        dsimp only
        rw [hsel, if_neg (by decide : ¬ ([2, 2, 0, 0, 0] : List Nat).sum = 0)]
        rw [show errSum [2, 2, 0, 0, 0] 1 = 2 from rfl,
            show ([2, 2, 0, 0, 0] : List Nat).sum = 4 from rfl, hP,
            if_neg (by norm_num : ¬ ((1 : ℚ) / 2) = 0), pyQuality_half]
        rfl
      simp [consensus_maker, hm, hr1, hv, optList, hps, hca]

/-- C5 witness: the general majority-and-quality clause applied to the single-vote
tally of one A vote with tie-break draw 0. -/
theorem C5_witness :
    1 ≤ (position_score [VoteOutcome.cast 0]).sum ∧
    ∃ k, k < 5 ∧
      (position_score [VoteOutcome.cast 0]).getD k 0 =
        maxList (position_score [VoteOutcome.cast 0]) ∧
      consensus_at (position_score [VoteOutcome.cast 0]) 0 =
        (nuc_lst.getD k 'N',
         if (((position_score [VoteOutcome.cast 0]).sum -
              (position_score [VoteOutcome.cast 0]).getD k 0 : Nat) : ℚ) /
             ((position_score [VoteOutcome.cast 0]).sum : ℚ) = 0 then 62
         else pyQuality ((((position_score [VoteOutcome.cast 0]).sum -
              (position_score [VoteOutcome.cast 0]).getD k 0 : Nat) : ℚ) /
             ((position_score [VoteOutcome.cast 0]).sum : ℚ))) :=
  ⟨by decide, C5_majority_quality.1 [VoteOutcome.cast 0] 0 (by decide)⟩
